import Mathlib

/-!
Shallow embedding of the hardened request gateway of
`netlify/functions/translate.js` (the "v7" revision) together with the
token issuance service (`/api/token`).

Modeling conventions:
* JavaScript strings are Lean `String`s (lists of characters; for every
  constant appearing here the UTF-16 length used by `slice`/`length` in
  JavaScript coincides with the character count).
* Timestamps are `Int` (milliseconds for `Date.now()` in the rate
  limiter, seconds for token expiries, exactly as in the source).
* The two module-level `Map`s (`ipWindows`, `usedNonces`) are association
  lists with JavaScript `Map` `get`/`set`/`has`/delete-while-iterating
  semantics; state is threaded explicitly.
* Platform primitives that the code only calls — the WHATWG URL parser
  behind `new URL`, the network behind `fetch`, and HMAC-SHA256 — are
  taken as function parameters of the operations that use them.
  Everything else is translated from the source.
* Fallible JavaScript code (`throw`) becomes `Except String` carrying the
  thrown message.
-/

/-! ## JavaScript `Map` model (association lists) -/

/-- `Map.prototype.has` on the association-list model of a JS `Map`. -/
def mapHas {α : Type} (m : List (String × α)) (k : String) : Bool :=
  m.any (fun kv => kv.1 == k)

/-- `Map.prototype.get` (returning `none` for `undefined`). -/
def mapGet {α : Type} (m : List (String × α)) (k : String) : Option α :=
  match m with
  | [] => none
  | kv :: rest => if kv.1 = k then some kv.2 else mapGet rest k

/-- `Map.prototype.set`: updates an existing key in place, otherwise
appends (JS `Map` preserves insertion order). -/
def mapSet {α : Type} (m : List (String × α)) (k : String) (v : α) : List (String × α) :=
  match m with
  | [] => [(k, v)]
  | kv :: rest => if kv.1 = k then (k, v) :: rest else kv :: mapSet rest k v

/-! ## Character/string helpers -/

/-- The characters matched by JavaScript's `\s` regex class (also the set
trimmed by `String.prototype.trim`). -/
def isJsSpace (c : Char) : Bool :=
  c = ' ' || c = '\t' || c = '\n' || c = '\r' || c = '\x0b' || c = '\x0c' ||
  c.toNat = 0xa0 || c.toNat = 0x1680 ||
  (0x2000 ≤ c.toNat && c.toNat ≤ 0x200a) ||
  c.toNat = 0x2028 || c.toNat = 0x2029 || c.toNat = 0x202f ||
  c.toNat = 0x205f || c.toNat = 0x3000 || c.toNat = 0xfeff

/-- JavaScript `String.prototype.trim`. -/
def jsTrim (s : String) : String :=
  String.mk (((s.toList.dropWhile isJsSpace).reverse.dropWhile isJsSpace).reverse)

/-- JavaScript `String.prototype.slice(0, n)` (count in characters). -/
def strTake (s : String) (n : Nat) : String :=
  String.mk (s.toList.take n)

/-- JavaScript `String.prototype.toLowerCase` (ASCII-faithful). -/
def lowerStr (s : String) : String :=
  String.mk (s.toList.map Char.toLower)

/-- Drop a literal prefix from a character list, returning the remainder
(`none` when the list does not start with the prefix). -/
def prefixDrop : List Char → List Char → Option (List Char)
  | [], s => some s
  | _ :: _, [] => none
  | p :: ps, c :: cs => if c = p then prefixDrop ps cs else none

/-- `String.prototype.startsWith` (literal prefix). -/
def strStartsWith (s p : String) : Bool :=
  (prefixDrop p.toList s.toList).isSome

/-- The `.endsWith`-style suffix tests of the host blocklist regex. -/
def strEndsWith (s p : String) : Bool :=
  (prefixDrop p.toList.reverse s.toList.reverse).isSome

/-- The opening brace character (written via its code point). -/
def lbrace : Char := Char.ofNat 123

/-- The closing brace character (written via its code point). -/
def rbrace : Char := Char.ofNat 125

/-! ## SSRF protection (`assertSafeUrl` and its regex constants)

`BLOCKED_HOST_RE`, `PRIVATE_IP_RE` and `CLOUD_METADATA` are the three
host filters of the source.  The two regexes are translated into
decidable string predicates; both are applied (as in the source) to the
already lower-cased hostname, so the `/i` flags are inert. -/

/-- `^(localhost|.*\.local|.*\.internal|.*\.localhost|metadata\.google\.internal)$`. -/
def BLOCKED_HOST_RE (host : String) : Bool :=
  host == "localhost" || strEndsWith host ".local" || strEndsWith host ".internal" ||
  strEndsWith host ".localhost" || host == "metadata.google.internal"

/-- `\d+` at the head of the list: requires at least one digit, consumes
the maximal digit run (the regex continuation is on disjoint characters,
so greedy consumption is exact). -/
def expectDigits : List Char → Option (List Char)
  | [] => none
  | c :: cs => if c.isDigit then some (cs.dropWhile Char.isDigit) else none

/-- A literal `.` at the head of the list. -/
def expectDot : List Char → Option (List Char)
  | [] => none
  | c :: cs => if c = '.' then some cs else none

/-- `10\.\d+\.\d+\.\d+` as a prefix. -/
def privTen (s : List Char) : Bool :=
  (do
    let r1 ← prefixDrop "10.".toList s
    let r2 ← expectDigits r1
    let r3 ← expectDot r2
    let r4 ← expectDigits r3
    let r5 ← expectDot r4
    let _ ← expectDigits r5
    pure ()).isSome

/-- The second octet alternatives `(1[6-9]|2\d|3[01])` of the 172.16/12
range (first characters of the alternatives are disjoint, so the match is
deterministic). -/
def octet172 : List Char → Option (List Char)
  | '1' :: c :: rest => if '6' ≤ c ∧ c ≤ '9' then some rest else none
  | '2' :: c :: rest => if c.isDigit then some rest else none
  | '3' :: c :: rest => if c = '0' ∨ c = '1' then some rest else none
  | _ => none

/-- `172\.(1[6-9]|2\d|3[01])\.\d+\.\d+` as a prefix. -/
def priv172 (s : List Char) : Bool :=
  (do
    let r1 ← prefixDrop "172.".toList s
    let r2 ← octet172 r1
    let r3 ← expectDot r2
    let r4 ← expectDigits r3
    let r5 ← expectDot r4
    let _ ← expectDigits r5
    pure ()).isSome

/-- `192\.168\.\d+\.\d+` as a prefix. -/
def priv192 (s : List Char) : Bool :=
  (do
    let r1 ← prefixDrop "192.168.".toList s
    let r2 ← expectDigits r1
    let r3 ← expectDot r2
    let _ ← expectDigits r3
    pure ()).isSome

/-- `127\.\d+\.\d+\.\d+` as a prefix. -/
def priv127 (s : List Char) : Bool :=
  (do
    let r1 ← prefixDrop "127.".toList s
    let r2 ← expectDigits r1
    let r3 ← expectDot r2
    let r4 ← expectDigits r3
    let r5 ← expectDot r4
    let _ ← expectDigits r5
    pure ()).isSome

/-- `169\.254\.\d+\.\d+` as a prefix. -/
def priv169 (s : List Char) : Bool :=
  (do
    let r1 ← prefixDrop "169.254.".toList s
    let r2 ← expectDigits r1
    let r3 ← expectDot r2
    let _ ← expectDigits r3
    pure ()).isSome

/-- Lower-case hexadecimal digit (`[0-9a-f]` on the lower-cased host). -/
def isHexDigitLower (c : Char) : Bool :=
  c.isDigit || ('a' ≤ c && c ≤ 'f')

/-- `fc[0-9a-f]{2}:` or `fd[0-9a-f]{2}:` as a prefix (IPv6 unique-local). -/
def ipv6Ula : List Char → Bool
  | 'f' :: k :: h1 :: h2 :: ':' :: _ =>
      (k = 'c' || k = 'd') && isHexDigitLower h1 && isHexDigitLower h2
  | _ => false

/-- `PRIVATE_IP_RE.test(host)`: the regex is anchored at the start only,
so each alternative is a prefix match. -/
def PRIVATE_IP_RE (host : String) : Bool :=
  let l := host.toList
  privTen l || priv172 l || priv192 l || priv127 l ||
  (prefixDrop "0.0.0.0".toList l).isSome || priv169 l ||
  (prefixDrop "::1".toList l).isSome || ipv6Ula l

/-- The `CLOUD_METADATA` set of the source. -/
def CLOUD_METADATA : List String :=
  ["169.254.169.254", "169.254.170.2", "metadata.google.internal", "100.100.100.200"]

/-- The combined host condition of `assertSafeUrl` on the lower-cased
hostname. -/
def isBlockedHost (host : String) : Bool :=
  BLOCKED_HOST_RE host || PRIVATE_IP_RE host || CLOUD_METADATA.contains host

/-- The result of the platform's `new URL(...)`: the two components the
gateway reads. -/
structure ParsedUrl where
  protocol : String
  hostname : String
deriving DecidableEq, Repr

/-- `assertSafeUrl(rawUrl)`.  The WHATWG parser behind `new URL` is the
`parse` parameter (`none` models the constructor throwing). -/
def assertSafeUrl (parse : String → Option ParsedUrl) (rawUrl : String) :
    Except String Unit :=
  match parse rawUrl with
  | none => .error "Invalid URL format."
  | some p =>
    if p.protocol ≠ "https:" then .error "Only HTTPS URLs are allowed."
    else
      let host := lowerStr p.hostname
      if isBlockedHost host then .error "URL points to a blocked or private address."
      else .ok ()

/-! ## `fetchPageText`: network oracle and HTML post-processing -/

/-- The response object the code reads from `fetch`: final URL after
redirects, `ok`, `status`, and the body text. -/
structure FetchResponse where
  url : String
  ok : Bool
  status : Nat
  body : String
deriving DecidableEq, Repr

/-- Outcome of a `fetch` call: abort by the 10 s timer, any other network
exception, or a response. -/
inductive NetResult
  | timeout
  | netError
  | response (r : FetchResponse)

/-- Case-insensitive literal prefix (pattern given in lower case). -/
def prefixDropCI : List Char → List Char → Option (List Char)
  | [], s => some s
  | _ :: _, [] => none
  | p :: ps, c :: cs => if c.toLower = p then prefixDropCI ps cs else none

/-- Consume `[^>]*>` : everything up to and including the first `>`. -/
def dropThroughGt : List Char → Option (List Char)
  | [] => none
  | c :: cs => if c = '>' then some cs else dropThroughGt cs

/-- Scan for the first case-insensitive occurrence of `pat` and return
the remainder after it (fuel-indexed; fuel `≥ length + 1` is exact). -/
def scanPastCI (pat : List Char) : Nat → List Char → Option (List Char)
  | 0, _ => none
  | fuel + 1, s =>
    match prefixDropCI pat s with
    | some rest => some rest
    | none =>
      match s with
      | [] => none
      | _ :: cs => scanPastCI pat fuel cs

/-- One match of `<tag[^>]*>[\s\S]*?<\/tag>` at the head of the list,
returning the remainder after the match. -/
def matchBlock (openPat closePat : List Char) (s : List Char) : Option (List Char) :=
  match prefixDropCI openPat s with
  | none => none
  | some r1 =>
    match dropThroughGt r1 with
    | none => none
    | some r2 => scanPastCI closePat (r2.length + 1) r2

/-- Global replacement of `<tag[^>]*>[\s\S]*?<\/tag>` by a single space,
scanning match positions left to right as the regex engine does. -/
def removeBlocksGo (openPat closePat : List Char) : Nat → List Char → List Char
  | 0, s => s
  | _ + 1, [] => []
  | fuel + 1, c :: cs =>
    match matchBlock openPat closePat (c :: cs) with
    | some rest => ' ' :: removeBlocksGo openPat closePat fuel rest
    | none => c :: removeBlocksGo openPat closePat fuel cs

/-- One match of `<[^>]+>` at the head of the list. -/
def matchTag : List Char → Option (List Char)
  | '<' :: c :: cs => if c = '>' then none else dropThroughGt (c :: cs)
  | _ => none

/-- Global replacement of `<[^>]+>` by a single space. -/
def removeTagsGo : Nat → List Char → List Char
  | 0, s => s
  | _ + 1, [] => []
  | fuel + 1, c :: cs =>
    match matchTag (c :: cs) with
    | some rest => ' ' :: removeTagsGo fuel rest
    | none => c :: removeTagsGo fuel cs

/-- Global replacement of `\s{2,}` by a single space: a run of two or
more whitespace characters collapses to `' '`, a lone whitespace
character is kept verbatim. -/
def collapseWsGo : Nat → List Char → List Char
  | 0, s => s
  | _ + 1, [] => []
  | fuel + 1, c :: cs =>
    if isJsSpace c then
      match cs with
      | d :: _ =>
        if isJsSpace d then ' ' :: collapseWsGo fuel (cs.dropWhile isJsSpace)
        else c :: collapseWsGo fuel cs
      | [] => [c]
    else c :: collapseWsGo fuel cs

/-- The body post-processing chain of `fetchPageText`: strip style and
script blocks, tags, a few entities, collapse whitespace, trim, and cap
at 15000 characters. -/
def pageTextOfHtml (html : String) : String :=
  let l0 := html.toList
  let l1 := removeBlocksGo "<style".toList "</style>".toList (l0.length + 1) l0
  let l2 := removeBlocksGo "<script".toList "</script>".toList (l1.length + 1) l1
  let l3 := removeTagsGo (l2.length + 1) l2
  let s3 := String.mk l3
  let s4 := (((s3.replace "&nbsp;" " ").replace "&amp;" "&").replace "&lt;" "<").replace "&gt;" ">"
  let l5 := collapseWsGo (s4.toList.length + 1) s4.toList
  strTake (jsTrim (String.mk l5)) 15000

/-- `fetchPageText(url)`.  The `net` parameter is the platform `fetch`
(with `redirect: "follow"`); the second component of the result is the
trace of network requests issued, so that "no network call was
attempted" is expressible. -/
def fetchPageText (parse : String → Option ParsedUrl) (net : String → NetResult)
    (url : String) : Except String String × List String :=
  match assertSafeUrl parse url with
  | .error e => (.error e, [])
  | .ok _ =>
    match net url with
    | .timeout => (.error "URL fetch timed out.", [url])
    | .netError => (.error "Could not fetch URL.", [url])
    | .response res =>
      if res.url ≠ "" ∧ res.url ≠ url then
        match assertSafeUrl parse res.url with
        | .error e => (.error ("Unsafe redirect: " ++ e), [url])
        | .ok _ =>
          if ¬ res.ok then
            (.error ("Could not fetch page (HTTP " ++ toString res.status ++ ")."), [url])
          else (.ok (pageTextOfHtml res.body), [url])
      else
        if ¬ res.ok then
          (.error ("Could not fetch page (HTTP " ++ toString res.status ++ ")."), [url])
        else (.ok (pageTextOfHtml res.body), [url])

/-! ## HMAC token verification (`pruneNonces`, `verifyToken`)

The `usedNonces` ledger (`Map` nonce → expiry seconds) is threaded
explicitly.  HMAC-SHA256 is the platform primitive `hmacHex secret
payload → hex digest`.  Token fields arrive from `JSON.parse` of the
client body; the model restricts each field to the type the issuance
service produces (string / integer), with `none` for an absent field —
the `typeof nonce !== "string"` branch of the source is inert in this
restricted value space. -/

/-- A decoded `{ nonce, exp, sig }` object (fields possibly absent). -/
structure TokenObj where
  nonce : Option String
  exp : Option Int
  sig : Option String

/-- `pruneNonces()`: delete every ledger entry whose expiry is in the
past (deleting while iterating a JS `Map` is equivalent to a filter). -/
def pruneNonces (now : Int) (used : List (String × Int)) : List (String × Int) :=
  used.filter (fun kv => ! decide (kv.2 < now))

/-- `Buffer.from(s, "hex")`: decode pairs of hex digits, stopping at the
first ill-formed pair (Node truncates instead of throwing). -/
def hexVal (c : Char) : Option Nat :=
  if '0' ≤ c ∧ c ≤ '9' then some (c.toNat - 48)
  else if 'a' ≤ c ∧ c ≤ 'f' then some (c.toNat - 87)
  else if 'A' ≤ c ∧ c ≤ 'F' then some (c.toNat - 55)
  else none

/-- Hex decoding of a character list into bytes. -/
def hexDecodeList : List Char → List Nat
  | c1 :: c2 :: rest =>
    match hexVal c1, hexVal c2 with
    | some hi, some lo => (16 * hi + lo) :: hexDecodeList rest
    | _, _ => []
  | _ => []

/-- `crypto.timingSafeEqual(Buffer.from(a,"hex"), Buffer.from(b,"hex"))`:
`none` models the thrown `RangeError` on a byte-length mismatch. -/
def timingSafeEqualHex (a b : String) : Option Bool :=
  let ba := hexDecodeList a.toList
  let bb := hexDecodeList b.toList
  if ba.length ≠ bb.length then none else some (ba == bb)

/-- `verifyToken(tokenObj)`.  Returns the boolean result and the ledger
after the call.  `secret = none` models `TOKEN_SECRET` being
unconfigured (development bypass). -/
def verifyToken (secret : Option String) (hmacHex : String → String → String)
    (now : Int) (used : List (String × Int)) (tok : Option TokenObj) :
    Bool × List (String × Int) :=
  match secret with
  | none => (true, used)
  | some sec =>
    let pruned := pruneNonces now used
    match tok with
    | none => (false, pruned)
    | some t =>
      match t.nonce, t.exp, t.sig with
      | some n, some e, some sg =>
        if n = "" ∨ e = 0 ∨ sg = "" then (false, pruned)
        else if n.length ≠ 32 then (false, pruned)
        else if e < now ∨ e > now + 5 * 60 + 10 then (false, pruned)
        else if mapHas pruned n then (false, pruned)
        else
          let expected := hmacHex sec (n ++ ":" ++ toString e)
          let valid := match timingSafeEqualHex sg expected with
                       | none => false
                       | some b => b
          if valid then (true, mapSet pruned n (e + 30)) else (false, pruned)
      | _, _, _ => (false, pruned)

/-- The signature the token issuance service (`/api/token`) computes for
a nonce/expiry pair: `HMAC-SHA256(secret, nonce ++ ":" ++ exp)` in hex. -/
def issueSig (hmacHex : String → String → String) (sec nonce : String) (exp : Int) : String :=
  hmacHex sec (nonce ++ ":" ++ toString exp)

/-- A well-signed token for a given nonce and expiry, as issued. -/
def issuedToken (hmacHex : String → String → String) (sec nonce : String) (exp : Int) :
    Option TokenObj :=
  some { nonce := some nonce, exp := some exp, sig := some (issueSig hmacHex sec nonce exp) }

/-! ## In-memory rate limiter (`checkRate`) -/

/-- `RATE_WINDOW` (milliseconds). -/
def RATE_WINDOW : Int := 60000

/-- `RATE_MAX`. -/
def RATE_MAX : Nat := 8

/-- One `ipWindows` record: `{ count, windowStart }`. -/
structure RateRec where
  count : Nat
  windowStart : Int
deriving DecidableEq, Repr

/-- `checkRate(ip)`.  `h` is the `hashIp` fingerprint function (SHA-256
prefix in the source, abstract here); the `ipWindows` map is threaded. -/
def checkRate (h : String → String) (now : Int)
    (st : List (String × RateRec)) (ip : String) : Bool × List (String × RateRec) :=
  let key := h ip
  match mapGet st key with
  | none => (true, mapSet st key ⟨1, now⟩)
  | some r =>
    if now - r.windowStart > RATE_WINDOW then (true, mapSet st key ⟨1, now⟩)
    else (decide (r.count + 1 ≤ RATE_MAX), mapSet st key ⟨r.count + 1, r.windowStart⟩)

/-- Iterated `checkRate` calls for one client at the given timestamps;
returns the admission verdicts in order plus the final map. -/
def runCalls (h : String → String) (ip : String) :
    List Int → List (String × RateRec) → List Bool × List (String × RateRec)
  | [], st => ([], st)
  | t :: ts, st =>
    let r := checkRate h t st ip
    let rest := runCalls h ip ts r.2
    (r.1 :: rest.1, rest.2)

/-! ## Error sanitizer and the handler's error responses -/

/-- The allow-list `OK` of safe message prefixes. -/
def OK : List String :=
  ["Mistral API:", "Recipe ", "Could not fetch", "URL ", "Only HTTPS",
   "Invalid URL", "Unsafe redirect", "URL fetch", "Input too", "Recipe text",
   "Page appears", "type must be", "No images", "Max 4", "Unsupported image",
   "Could not parse", "Bilderna"]

/-- `err?.message || "Unknown error"` (an absent or empty message is
replaced by the fallback). -/
def errMsgOf : Option String → String
  | none => "Unknown error"
  | some s => if s = "" then "Unknown error" else s

/-- `safeErrorMessage(err)`. -/
def safeErrorMessage (err : Option String) : String :=
  let msg := errMsgOf err
  if OK.any (fun p => strStartsWith msg p) then msg
  else "Translation failed. Please try again."

/-- The parts of a handler error response the claims are about: HTTP
status, the optional `Retry-After` header, and the decoded
`{ ok, error }` body. -/
structure ErrorResp where
  statusCode : Nat
  retryAfter : Option String
  ok : Bool
  error : String
deriving DecidableEq, Repr

/-- The handler's catch-all clause: a 500 whose body carries
`safeErrorMessage(err)`. -/
def handlerCatch (errMsg : Option String) : ErrorResp :=
  { statusCode := 500, retryAfter := none, ok := false, error := safeErrorMessage errMsg }

/-- The handler's fixed 429 response (`Retry-After: "60"`). -/
def handler429 : ErrorResp :=
  { statusCode := 429, retryAfter := some "60", ok := false,
    error := "For manga anrop. Vanta en minut." }

/-- The handler's rate-limit step: run `checkRate` and, on denial,
short-circuit with the fixed 429 response. -/
def handlerRateStep (h : String → String) (now : Int)
    (st : List (String × RateRec)) (ip : String) :
    Option ErrorResp × List (String × RateRec) :=
  let r := checkRate h now st ip
  if r.1 then (none, r.2) else (some handler429, r.2)

/-! ## JSON values and `JSON.parse`

`JSON.parse` is modeled by a recursive-descent parser over the standard
JSON grammar.  Numbers keep their source literal (the claims never
convert a number back to a string); `\uXXXX` escapes are decoded as code
points (surrogate-pair recombination is not modeled — no claim touches
astral characters). -/

/-- A parsed JSON value.  Object fields keep their textual order; on
lookup the last occurrence of a duplicated key wins, as in `JSON.parse`. -/
inductive Json where
  | null
  | bool (b : Bool)
  | num (raw : String)
  | str (s : String)
  | arr (elems : List Json)
  | obj (fields : List (String × Json))

/-- JSON's whitespace (only these four, unlike JS `\s`). -/
def jsonWs (c : Char) : Bool :=
  c = ' ' || c = '\t' || c = '\n' || c = '\r'

/-- Parse a JSON string body (opening quote already consumed). -/
def pStr : Nat → List Char → List Char → Option (String × List Char)
  | 0, _, _ => none
  | fuel + 1, s, acc =>
    match s with
    | [] => none
    | c :: cs =>
      if c = '"' then some (String.mk acc.reverse, cs)
      else if c = '\\' then
        match cs with
        | [] => none
        | e :: es =>
          if e = '"' then pStr fuel es ('"' :: acc)
          else if e = '\\' then pStr fuel es ('\\' :: acc)
          else if e = '/' then pStr fuel es ('/' :: acc)
          else if e = 'b' then pStr fuel es ('\x08' :: acc)
          else if e = 'f' then pStr fuel es ('\x0c' :: acc)
          else if e = 'n' then pStr fuel es ('\n' :: acc)
          else if e = 'r' then pStr fuel es ('\r' :: acc)
          else if e = 't' then pStr fuel es ('\t' :: acc)
          else if e = 'u' then
            match es with
            | h1 :: h2 :: h3 :: h4 :: es2 =>
              match hexVal h1, hexVal h2, hexVal h3, hexVal h4 with
              | some a, some b, some c2, some d =>
                pStr fuel es2 (Char.ofNat (4096 * a + 256 * b + 16 * c2 + d) :: acc)
              | _, _, _, _ => none
            | _ => none
          else none
      else if c.toNat < 32 then none
      else pStr fuel cs (c :: acc)

/-- Optional fraction part `(\.[0-9]+)?`: `some` of the consumed
characters and the rest, `none` on a malformed fraction. -/
def pFrac : List Char → Option (List Char × List Char)
  | '.' :: cs =>
    match cs with
    | c :: _ =>
      if c.isDigit then some ('.' :: cs.takeWhile Char.isDigit, cs.dropWhile Char.isDigit)
      else none
    | [] => none
  | s => some ([], s)

/-- Optional exponent part `([eE][+-]?[0-9]+)?`. -/
def pExpPart : List Char → Option (List Char × List Char)
  | c :: cs =>
    if c = 'e' ∨ c = 'E' then
      let signAndRest : List Char × List Char :=
        match cs with
        | d :: ds => if d = '+' ∨ d = '-' then ([d], ds) else ([], cs)
        | [] => ([], [])
      match signAndRest.2 with
      | d :: _ =>
        if d.isDigit then
          some (c :: signAndRest.1 ++ signAndRest.2.takeWhile Char.isDigit,
                signAndRest.2.dropWhile Char.isDigit)
        else none
      | [] => none
    else some ([], c :: cs)
  | [] => some ([], [])

/-- Parse a JSON number `-?(0|[1-9][0-9]*)(\.[0-9]+)?([eE][+-]?[0-9]+)?`,
keeping the raw literal. -/
def pNum (s : List Char) : Option (Json × List Char) :=
  let negAndRest : List Char × List Char :=
    match s with
    | c :: cs => if c = '-' then ([c], cs) else ([], s)
    | [] => ([], [])
  match negAndRest.2 with
  | [] => none
  | c :: cs =>
    if c = '0' then
      match pFrac cs with
      | none => none
      | some (fr, r1) =>
        match pExpPart r1 with
        | none => none
        | some (ex, r2) => some (Json.num (String.mk (negAndRest.1 ++ [c] ++ fr ++ ex)), r2)
    else if c.isDigit then
      let ds := cs.takeWhile Char.isDigit
      match pFrac (cs.dropWhile Char.isDigit) with
      | none => none
      | some (fr, r1) =>
        match pExpPart r1 with
        | none => none
        | some (ex, r2) =>
          some (Json.num (String.mk (negAndRest.1 ++ [c] ++ ds ++ fr ++ ex)), r2)
    else none

mutual

/-- Parse one JSON value (leading whitespace allowed), returning the
value and the unconsumed rest. -/
def pVal : Nat → List Char → Option (Json × List Char)
  | 0, _ => none
  | fuel + 1, s0 =>
    let s := s0.dropWhile jsonWs
    match s with
    | [] => none
    | c :: cs =>
      if c = lbrace then
        let cs2 := cs.dropWhile jsonWs
        if cs2.head? = some rbrace then some (Json.obj [], cs2.tail)
        else pObjFields fuel cs2 []
      else if c = '[' then
        let cs2 := cs.dropWhile jsonWs
        if cs2.head? = some ']' then some (Json.arr [], cs2.tail)
        else pArrElems fuel cs2 []
      else if c = '"' then
        match pStr (cs.length + 1) cs [] with
        | some (t, rest) => some (Json.str t, rest)
        | none => none
      else if c = 't' then (prefixDrop "rue".toList cs).map (fun r => (Json.bool true, r))
      else if c = 'f' then (prefixDrop "alse".toList cs).map (fun r => (Json.bool false, r))
      else if c = 'n' then (prefixDrop "ull".toList cs).map (fun r => (Json.null, r))
      else pNum s

/-- Parse the elements of a non-empty JSON array (position: at a value). -/
def pArrElems : Nat → List Char → List Json → Option (Json × List Char)
  | 0, _, _ => none
  | fuel + 1, s, acc =>
    match pVal fuel s with
    | none => none
    | some (v, rest) =>
      let r1 := rest.dropWhile jsonWs
      match r1 with
      | ',' :: r2 => pArrElems fuel r2 (v :: acc)
      | ']' :: r2 => some (Json.arr (v :: acc).reverse, r2)
      | _ => none

/-- Parse the members of a non-empty JSON object (position: at a key). -/
def pObjFields : Nat → List Char → List (String × Json) → Option (Json × List Char)
  | 0, _, _ => none
  | fuel + 1, s, acc =>
    let s1 := s.dropWhile jsonWs
    match s1 with
    | '"' :: cs =>
      match pStr (cs.length + 1) cs [] with
      | none => none
      | some (k, r1) =>
        match r1.dropWhile jsonWs with
        | ':' :: r2 =>
          match pVal fuel r2 with
          | none => none
          | some (v, r3) =>
            match r3.dropWhile jsonWs with
            | ',' :: r4 => pObjFields fuel r4 ((k, v) :: acc)
            | d :: r4 =>
              if d = rbrace then some (Json.obj ((k, v) :: acc).reverse, r4) else none
            | [] => none
        | _ => none
    | _ => none

end

/-- `JSON.parse`: parse one value and require only whitespace after it. -/
def jsonParse (s : String) : Option Json :=
  let l := s.toList
  match pVal (l.length + 2) l with
  | some (v, rest) => if (rest.dropWhile jsonWs).isEmpty then some v else none
  | none => none

/-! ## `extractJSON` -/

/-- Index of the first occurrence of a character (`-1` when absent), as
`String.prototype.indexOf`. -/
def idxOf (c : Char) : List Char → Int
  | [] => -1
  | d :: ds => if d = c then 0 else (let r := idxOf c ds; if r < 0 then -1 else r + 1)

/-- `String.prototype.lastIndexOf` for a character. -/
def lastIdxOf (c : Char) (s : List Char) : Int :=
  let r := idxOf c s.reverse
  if r < 0 then -1 else (s.length : Int) - 1 - r

/-- The lazy tail of the fence regex: `[\s\S]*?` up to the closing
delimiter — the capture runs to the first following triple backtick. -/
def takeUntilTicks : Nat → List Char → Option (List Char)
  | 0, _ => none
  | fuel + 1, s =>
    match prefixDrop "```".toList s with
    | some _ => some []
    | none =>
      match s with
      | [] => none
      | c :: cs => (takeUntilTicks fuel cs).map (fun r => c :: r)

/-- Try the fence regex at the current position: a literal triple
backtick, an optional literal `json` tag, greedy `\s*`, then the lazy
capture up to the closing triple backtick. -/
def tryFenceAt (s : List Char) : Option (List Char) :=
  match prefixDrop "```".toList s with
  | none => none
  | some r1 =>
    let r2 := match prefixDrop "json".toList r1 with
              | some x => x
              | none => r1
    let r3 := r2.dropWhile isJsSpace
    takeUntilTicks (r3.length + 1) r3

/-- `text.match(/…/)`: scan match positions left to right, returning the
first capture group of the first successful match. -/
def fencedCapture : Nat → List Char → Option (List Char)
  | 0, _ => none
  | fuel + 1, s =>
    match tryFenceAt s with
    | some cap => some cap
    | none =>
      match s with
      | [] => none
      | _ :: cs => fencedCapture fuel cs

/-- `extractJSON(text)`: whole-text parse, then fenced-block parse, then
the substring from the first opening brace to the last closing brace;
the first parse that succeeds wins. -/
def extractJSON (text : String) : Except String Json :=
  if text = "" then .error "Empty response."
  else
    match jsonParse (jsTrim text) with
    | some j => .ok j
    | none =>
      let fromFence : Option Json :=
        match fencedCapture (text.toList.length + 1) text.toList with
        | some cap => jsonParse (jsTrim (String.mk cap))
        | none => none
      match fromFence with
      | some j => .ok j
      | none =>
        let l := text.toList
        let s := idxOf lbrace l
        let e := lastIdxOf rbrace l
        if s ≥ 0 ∧ e > s then
          match jsonParse (String.mk ((l.drop s.toNat).take (e.toNat + 1 - s.toNat))) with
          | some j => .ok j
          | none => .error "Could not parse model response."
        else .error "Could not parse model response."

/-! ## `validateRecipe` -/

/-- JavaScript truthiness of a JSON value (`""`, `0`, `false`, `null`
are falsy; arrays and objects always truthy). -/
def jTruthy : Json → Bool
  | .null => false
  | .bool b => b
  | .num raw => !(raw.toList.all (fun c => c = '0' || c = '.' || c = '-'))
  | .str s => s ≠ ""
  | .arr _ => true
  | .obj _ => true

/-- `typeof v === "object"` (true for objects, arrays and `null`). -/
def jsTypeofObject : Json → Bool
  | .null => true
  | .arr _ => true
  | .obj _ => true
  | _ => false

/-- Property access `v.k` on a JSON value: `none` models `undefined`
(non-objects have no recipe properties; the last duplicate key wins as
in `JSON.parse`). -/
def jget (v : Json) (k : String) : Option Json :=
  match v with
  | .obj kvs => mapGetLast kvs k
  | _ => none
where
  mapGetLast : List (String × Json) → String → Option Json
    | [], _ => none
    | kv :: rest, k =>
      match mapGetLast rest k with
      | some r => some r
      | none => if kv.1 = k then some kv.2 else none

mutual

/-- JavaScript `String(v)` for the values `JSON.parse` can produce
(numbers are rendered as their literal — exact for the canonical
literals that occur here). -/
def jsToString : Json → String
  | .null => "null"
  | .bool b => if b then "true" else "false"
  | .num raw => raw
  | .str s => s
  | .arr xs => jsArrJoin xs
  | .obj _ => "[object Object]"

/-- `Array.prototype.toString` = `join(",")`; a `null` element renders
as the empty string there. -/
def jsArrJoin : List Json → String
  | [] => ""
  | [Json.null] => ""
  | [v] => jsToString v
  | Json.null :: rest => "," ++ jsArrJoin rest
  | v :: rest => jsToString v ++ "," ++ jsArrJoin rest

end

/-- `String(v.k || "").slice(0, bound)`: an absent or falsy field
becomes the empty string. -/
def jFieldStr (v : Json) (k : String) (bound : Nat) : String :=
  match jget v k with
  | some w => if jTruthy w then strTake (jsToString w) bound else ""
  | none => ""

/-- `String(obj.meta?.k || "").slice(0, bound)`. -/
def jMetaStr (v : Json) (k : String) (bound : Nat) : String :=
  match jget v "meta" with
  | some m => jFieldStr m k bound
  | none => ""

/-- The `!obj.titel?.trim()` gate: `.ok` carries the (untrimmed) title
string; `"TypeError"` models the exception thrown by `.trim()` on a
non-string, non-nullish field. -/
def titleOf (j : Json) : Except String String :=
  match jget j "titel" with
  | none => .error "Recipe missing title."
  | some Json.null => .error "Recipe missing title."
  | some (Json.str s) =>
    if jsTrim s = "" then .error "Recipe missing title." else .ok s
  | some _ => .error "TypeError"

/-- `!Array.isArray(obj.k) || !obj.k.length`, with the named error. -/
def arrayField (j : Json) (k errMsg : String) : Except String (List Json) :=
  match jget j k with
  | some (Json.arr xs) => if xs.isEmpty then .error errMsg else .ok xs
  | _ => .error errMsg

/-- One sanitized ingredient record. -/
structure Ingredient where
  grupp : String
  mangd : String
  ingrediens : String
deriving DecidableEq, Repr

/-- The sanitized `meta` sub-object. -/
structure RecipeMeta where
  portioner : String
  totaltid : String
  svarighetsgrad : String
deriving DecidableEq, Repr

/-- The sanitized recipe returned by `validateRecipe`. -/
structure Recipe where
  titel : String
  beskrivning : String
  detectedLanguage : String
  noteringar : String
  meta : RecipeMeta
  ingredienser : List Ingredient
  steg : List String
deriving DecidableEq, Repr

/-- The per-ingredient mapping of `validateRecipe` (`i.grupp` on a
`null` element throws a TypeError). -/
def mkIngredient (i : Json) : Except String Ingredient :=
  match i with
  | Json.null => .error "TypeError"
  | _ => .ok { grupp := jFieldStr i "grupp" 100,
               mangd := jFieldStr i "mangd" 100,
               ingrediens := jFieldStr i "ingrediens" 200 }

/-- `obj.ingredienser.slice(0, 200).map(...)` with exception
propagation. -/
def mapIngredients : List Json → Except String (List Ingredient)
  | [] => .ok []
  | i :: rest =>
    match mkIngredient i with
    | .error e => .error e
    | .ok ing =>
      match mapIngredients rest with
      | .error e => .error e
      | .ok ings => .ok (ing :: ings)

/-- `validateRecipe(obj)`. -/
def validateRecipe (j : Json) : Except String Recipe :=
  if jTruthy j && jsTypeofObject j then
    match titleOf j with
    | .error e => .error e
    | .ok ts =>
      match arrayField j "ingredienser" "Recipe missing ingredients." with
      | .error e => .error e
      | .ok ingr =>
        match arrayField j "steg" "Recipe missing steps." with
        | .error e => .error e
        | .ok st =>
          match mapIngredients (ingr.take 200) with
          | .error e => .error e
          | .ok ings =>
            .ok { titel := strTake ts 200,
                  beskrivning := jFieldStr j "beskrivning" 1000,
                  detectedLanguage := jFieldStr j "detectedLanguage" 50,
                  noteringar := jFieldStr j "noteringar" 2000,
                  meta := { portioner := jMetaStr j "portioner" 100,
                            totaltid := jMetaStr j "totaltid" 100,
                            svarighetsgrad := jMetaStr j "svarighetsgrad" 50 },
                  ingredienser := ings,
                  steg := (st.take 100).map (fun x => strTake (jsToString x) 2000) }
  else .error "Response is not a recipe object."

/-! ## Statement predicates

Decidable input-shape predicates used only to state the claims (the
operations above are the translations of the source). -/

/-- The title field is missing or empty after trimming (`!obj.titel?.trim()`
for nullish-or-string fields). -/
def titleEmptyish (j : Json) : Bool :=
  match jget j "titel" with
  | none => true
  | some Json.null => true
  | some (Json.str s) => jsTrim s == ""
  | some _ => false

/-- The title field is a string with non-empty trim. -/
def titleOkB (j : Json) : Bool :=
  match jget j "titel" with
  | some (Json.str s) => jsTrim s != ""
  | _ => false

/-- Field `k` is not a non-empty array. -/
def badArrayB (j : Json) (k : String) : Bool :=
  match jget j k with
  | some (Json.arr xs) => xs.isEmpty
  | _ => true

/-! ## Concrete instances for the witnesses -/

/-- A two-URL world for the URL-parser parameter: one public host and
one loopback host. -/
def wParse : String → Option ParsedUrl := fun s =>
  if s = "https://good.example.com/page" then some ⟨"https:", "good.example.com"⟩
  else if s = "https://127.0.0.1/latest" then some ⟨"https:", "127.0.0.1"⟩
  else none

/-- A network in which the public URL redirects to the loopback URL. -/
def wNet : String → NetResult := fun s =>
  if s = "https://good.example.com/page" then
    .response ⟨"https://127.0.0.1/latest", true, 200, "<p>internal secret</p>"⟩
  else .netError

/-- A fixed (degenerate) HMAC oracle for the token witnesses. -/
def wHmac : String → String → String := fun _ _ => "ab"

/-- A 32-character nonce as issued by `/api/token`
(`crypto.randomBytes(16).toString("hex")`). -/
def wNonce : String := "0123456789abcdef0123456789abcdef"

/-- Rate-limiter state in mid-window with the counter already at
`RATE_MAX`, 30 s after the window start. -/
def rateStC7 : List (String × RateRec) := [("k", ⟨8, 0⟩)]

/-- A recipe object whose title is blank, for the validation witness. -/
def recipeNoTitle : Json :=
  Json.obj [("titel", Json.str "   "),
            ("ingredienser", Json.arr [Json.obj []]),
            ("steg", Json.arr [Json.str "Do."])]

/-! ## Helper lemmas -/

theorem mapGet_mapSet_self {α : Type} (m : List (String × α)) (k : String) (v : α) :
    mapGet (mapSet m k v) k = some v := by
  induction m with
  | nil => simp [mapSet, mapGet]
  | cons kv rest ih =>
    by_cases h : kv.1 = k
    · simp [mapSet, mapGet, h]
    · simp [mapSet, mapGet, h, ih]

theorem mapSet_mapSet {α : Type} (m : List (String × α)) (k : String) (v w : α) :
    mapSet (mapSet m k v) k w = mapSet m k w := by
  induction m with
  | nil => simp [mapSet]
  | cons kv rest ih =>
    by_cases h : kv.1 = k
    · simp [mapSet, h]
    · simp [mapSet, h, ih]

theorem mapSet_self_of_get {α : Type} (m : List (String × α)) (k : String) (v : α)
    (h : mapGet m k = some v) : mapSet m k v = m := by
  induction m with
  | nil => simp [mapGet] at h
  | cons kv rest ih =>
    obtain ⟨k1, v1⟩ := kv
    by_cases hk : k1 = k
    · subst hk
      simp [mapGet] at h
      simp [mapSet, h]
    · simp [mapGet, hk] at h
      simp [mapSet, hk, ih h]

theorem mapSet_append_of_not_has {α : Type} (m : List (String × α)) (k : String) (v : α)
    (h : mapHas m k = false) : mapSet m k v = m ++ [(k, v)] := by
  induction m with
  | nil => simp [mapSet]
  | cons kv rest ih =>
    simp [mapHas, List.any_cons] at h
    obtain ⟨h1, h2⟩ := h
    have hk : ¬ kv.1 = k := by
      intro he
      exact h1 (by simp [he])
    simp [mapSet, hk]
    exact ih (by simpa [mapHas] using h2)

theorem mapHas_filter_false {α : Type} (m : List (String × α)) (k : String)
    (p : String × α → Bool) (h : mapHas m k = false) :
    mapHas (m.filter p) k = false := by
  induction m with
  | nil => simp [mapHas]
  | cons kv rest ih =>
    simp [mapHas, List.any_cons] at h ⊢
    obtain ⟨h1, h2⟩ := h
    by_cases hp : p kv
    · simp [List.filter_cons, hp, mapHas, List.any_cons]
      constructor
      · exact h1
      · simpa [mapHas] using ih (by simpa [mapHas] using h2)
    · simp [List.filter_cons, hp]
      simpa [mapHas] using ih (by simpa [mapHas] using h2)

theorem mapHas_append {α : Type} (a b : List (String × α)) (k : String) :
    mapHas (a ++ b) k = (mapHas a k || mapHas b k) := by
  simp [mapHas, List.any_append]

theorem strLengthMk (l : List Char) : (String.mk l).length = l.length := rfl

theorem strTake_length_le (s : String) (n : Nat) : (strTake s n).length ≤ n := by
  rw [strTake, strLengthMk]
  exact List.length_take_le _ _

theorem strTake_length_eq (s : String) (n : Nat) :
    (strTake s n).length = min n s.toList.length := by
  rw [strTake, strLengthMk]
  exact List.length_take _ _

/-! ## Claim theorems -/

/-- C1: for every URL whose parsed hostname is on the blocklist
(loopback, link-local, private IPv4 ranges, `.internal`-style suffixes,
cloud-metadata hosts), `fetchPageText` issues no network request and
fails inside `assertSafeUrl`; when the URL's scheme is HTTPS the error
is exactly the `UnsafeURL` message
"URL points to a blocked or private address.". -/
theorem claim_C1_blocked_host_no_fetch
    (parse : String → Option ParsedUrl) (net : String → NetResult)
    (url : String) (pu : ParsedUrl)
    (hparse : parse url = some pu)
    (hblocked : isBlockedHost (lowerStr pu.hostname) = true) :
    (fetchPageText parse net url).2 = [] ∧
    ∃ e, (fetchPageText parse net url).1 = .error e ∧
      (pu.protocol = "https:" → e = "URL points to a blocked or private address.") := by
  by_cases hp : pu.protocol = "https:"
  · have hsafe : assertSafeUrl parse url = .error "URL points to a blocked or private address." := by
      simp [assertSafeUrl, hparse, hp, hblocked]
    refine ⟨?_, "URL points to a blocked or private address.", ?_, fun _ => rfl⟩
    · simp [fetchPageText, hsafe]
    · simp [fetchPageText, hsafe]
  · have hsafe : assertSafeUrl parse url = .error "Only HTTPS URLs are allowed." := by
      simp [assertSafeUrl, hparse, hp]
    refine ⟨?_, "Only HTTPS URLs are allowed.", ?_, fun h => absurd h hp⟩
    · simp [fetchPageText, hsafe]
    · simp [fetchPageText, hsafe]

/-- C1 witness: a loopback URL is rejected with the blocked-address
message and the request trace stays empty. -/
theorem claim_C1_witness :
    (fetchPageText wParse wNet "https://127.0.0.1/latest").2 = [] ∧
    ∃ e, (fetchPageText wParse wNet "https://127.0.0.1/latest").1 = .error e ∧
      ((ParsedUrl.mk "https:" "127.0.0.1").protocol = "https:" →
        e = "URL points to a blocked or private address.") :=
  claim_C1_blocked_host_no_fetch wParse wNet "https://127.0.0.1/latest"
    ⟨"https:", "127.0.0.1"⟩ rfl (by decide)

/-- C2: a URL that passes the initial safety check but whose fetch
resolves (after redirects) to a different URL failing the safety check
makes `fetchPageText` fail with "Unsafe redirect: …" after the request
has been issued, and the response body is never returned. -/
theorem claim_C2_unsafe_redirect
    (parse : String → Option ParsedUrl) (net : String → NetResult)
    (url : String) (res : FetchResponse) (e : String)
    (hsafe : assertSafeUrl parse url = .ok ())
    (hnet : net url = .response res)
    (hne : res.url ≠ "") (hdiff : res.url ≠ url)
    (hbad : assertSafeUrl parse res.url = .error e) :
    fetchPageText parse net url = (.error ("Unsafe redirect: " ++ e), [url]) := by
  simp [fetchPageText, hsafe, hnet, hne, hdiff, hbad]

/-- C2 witness: the public URL redirects to the loopback URL; the fetch
fails with the unsafe-redirect message after one request. -/
theorem claim_C2_witness :
    fetchPageText wParse wNet "https://good.example.com/page" =
      (.error ("Unsafe redirect: " ++ "URL points to a blocked or private address."),
       ["https://good.example.com/page"]) :=
  claim_C2_unsafe_redirect wParse wNet "https://good.example.com/page"
    ⟨"https://127.0.0.1/latest", true, 200, "<p>internal secret</p>"⟩
    "URL points to a blocked or private address."
    rfl rfl (by decide) (by decide) rfl

/-- C5: the 500 response produced by the handler's catch block carries
the error's original message exactly when that message starts with an
allow-list prefix, and exactly the fixed generic string otherwise — a
raw internal message outside the allow-list never appears. -/
theorem claim_C5_sanitized_errors (err : Option String) :
    (handlerCatch err).statusCode = 500 ∧
    (OK.any (fun p => strStartsWith (errMsgOf err) p) = true →
      (handlerCatch err).error = errMsgOf err) ∧
    (OK.any (fun p => strStartsWith (errMsgOf err) p) = false →
      (handlerCatch err).error = "Translation failed. Please try again.") := by
  refine ⟨rfl, ?_, ?_⟩
  · intro h
    simp [handlerCatch, safeErrorMessage, h]
  · intro h
    simp [handlerCatch, safeErrorMessage, h]

/-- C5 witness: an allow-listed message passes through verbatim, an
internal one is replaced by the generic string. -/
theorem claim_C5_witness :
    (handlerCatch (some "Could not fetch URL.")).error = "Could not fetch URL." ∧
    (handlerCatch (some "ECONNREFUSED 10.0.0.5:443")).error =
      "Translation failed. Please try again." :=
  ⟨(claim_C5_sanitized_errors (some "Could not fetch URL.")).2.1 (by decide),
   (claim_C5_sanitized_errors (some "ECONNREFUSED 10.0.0.5:443")).2.2 (by decide)⟩

/-- C4: with a signing secret configured, any token whose `exp` lies
before `now` or after `now + TTL + skew` (`now + 5*60 + 10`) is
rejected, whatever its signature — the result is `false` for every
possible `sig` value, so the expiry decision never depends on the
signature. -/
theorem claim_C4_expiry_before_signature
    (sec : String) (hmacHex : String → String → String) (now : Int)
    (used : List (String × Int)) (n : String) (e : Int) (sg : String)
    (hexp : e < now ∨ e > now + 5 * 60 + 10) :
    (verifyToken (some sec) hmacHex now used
      (some { nonce := some n, exp := some e, sig := some sg })).1 = false := by
  by_cases h1 : n = "" ∨ e = 0 ∨ sg = ""
  · simp [verifyToken, h1]
  · by_cases h2 : n.length ≠ 32
    · simp [verifyToken, h1, h2]
    · have hx : e < now ∨ now + 300 + 10 < e := by omega
      simp [verifyToken, h1, h2, hx]

/-- C4 witness: an expired token carrying the very signature the server
would compute is still rejected. -/
theorem claim_C4_witness :
    (verifyToken (some "s3cr3t") wHmac 1000 []
      (some { nonce := some wNonce, exp := some 10,
              sig := some (wHmac "s3cr3t" (wNonce ++ ":" ++ toString (10 : Int))) })).1 = false :=
  claim_C4_expiry_before_signature "s3cr3t" wHmac 1000 [] wNonce 10
    (wHmac "s3cr3t" (wNonce ++ ":" ++ toString (10 : Int))) (by decide)

/-- A rejecting `verifyToken` call leaves the ledger equal to the
pruned input ledger (shared helper for the ledger claims). -/
theorem verifyFail_state (secret : Option String) (hmacHex : String → String → String)
    (now : Int) (used : List (String × Int)) (tok : Option TokenObj)
    (hfail : (verifyToken secret hmacHex now used tok).1 = false) :
    (verifyToken secret hmacHex now used tok).2 = pruneNonces now used := by
  cases secret with
  | none => simp [verifyToken] at hfail
  | some sec =>
    cases tok with
    | none => simp [verifyToken]
    | some t =>
      obtain ⟨n0, e0, s0⟩ := t
      match n0, e0, s0 with
      | none, _, _ => simp [verifyToken]
      | some n, none, _ => simp [verifyToken]
      | some n, some e, none => simp [verifyToken]
      | some n, some e, some sg =>
        by_cases h1 : n = "" ∨ e = 0 ∨ sg = ""
        · simp [verifyToken, h1]
        · by_cases h2 : n.length ≠ 32
          · simp [verifyToken, h1, h2]
          · by_cases h3 : e < now ∨ now + 300 + 10 < e
            · simp [verifyToken, h1, h2, h3]
            · by_cases h4 : mapHas (pruneNonces now used) n = true
              · simp [verifyToken, h1, h2, h3, h4]
              · by_cases h5 : (match timingSafeEqualHex sg
                    (hmacHex sec (n ++ ":" ++ toString e)) with
                  | none => false
                  | some b => b) = true
                · exfalso
                  simp [verifyToken, h1, h2, h3, h4, h5] at hfail
                · simp [verifyToken, h1, h2, h3, h4, h5]

/-- Comparing a hex signature against itself never throws and succeeds
(shared helper). -/
theorem timingSafeEqualHex_self (s : String) : timingSafeEqualHex s s = some true := by
  simp [timingSafeEqualHex]

/-- C10: `verifyToken` mutates the nonce ledger only on full success —
every rejecting call (missing fields, bad shape, out-of-range expiry,
replay, or signature mismatch, including a malformed signature whose
timing-safe comparison throws) leaves the ledger equal to the pruned
input ledger; consequently a structurally valid fresh token rejected
once for a wrong signature still verifies with the correct signature
afterwards. -/
theorem claim_C10_ledger_only_on_success :
    (∀ (secret : Option String) (hmacHex : String → String → String) (now : Int)
       (used : List (String × Int)) (tok : Option TokenObj),
       (verifyToken secret hmacHex now used tok).1 = false →
       (verifyToken secret hmacHex now used tok).2 = pruneNonces now used) ∧
    (∀ (sec : String) (hmacHex : String → String → String) (now : Int)
       (used : List (String × Int)) (n : String) (e : Int) (sg : String),
       n.length = 32 → 0 < e →
       ¬ e < now → ¬ e > now + 5 * 60 + 10 →
       mapHas (pruneNonces now used) n = false →
       issueSig hmacHex sec n e ≠ "" →
       (verifyToken (some sec) hmacHex now used
         (some { nonce := some n, exp := some e, sig := some sg })).1 = false →
       (verifyToken (some sec) hmacHex now
         (verifyToken (some sec) hmacHex now used
           (some { nonce := some n, exp := some e, sig := some sg })).2
         (issuedToken hmacHex sec n e)).1 = true) := by
  constructor
  · intro secret hmacHex now used tok hfail
    exact verifyFail_state secret hmacHex now used tok hfail
  · intro sec hmacHex now used n e sg hn he hlo hhi hfresh hsig hfail
    rw [verifyFail_state _ _ _ _ _ hfail]
    have hne : ¬ (n = "" ∨ e = 0 ∨ issueSig hmacHex sec n e = "") := by
      rintro (h | h | h)
      · rw [h] at hn
        exact absurd hn (by decide)
      · omega
      · exact hsig h
    have h2 : ¬ n.length ≠ 32 := by omega
    have h3 : ¬ (e < now ∨ now + 300 + 10 < e) := by omega
    have hprune : pruneNonces now (pruneNonces now used) = pruneNonces now used := by
      simp [pruneNonces, List.filter_filter]
    have hself := timingSafeEqualHex_self (issueSig hmacHex sec n e)
    simp only [issueSig] at hself hne
    simp [verifyToken, issuedToken, issueSig, hne, h2, h3, hprune, hfresh, hself]

/-- C3: with a signing secret configured, a well-formed, correctly
signed, unexpired, fresh token verifies successfully exactly once: the
first call records its nonce with expiry `exp + 30`, any later call
presenting the same token before expiry is rejected, and the recorded
entry is pruned only once `exp + 30` has passed. -/
theorem claim_C3_single_use_nonce
    (hmacHex : String → String → String) (sec : String)
    (st : List (String × Int)) (n : String) (e now1 : Int)
    (hn : n.length = 32) (he : 0 < e)
    (hlo : ¬ e < now1) (hhi : ¬ e > now1 + 5 * 60 + 10)
    (hfresh : mapHas (pruneNonces now1 st) n = false)
    (hsig : issueSig hmacHex sec n e ≠ "") :
    (verifyToken (some sec) hmacHex now1 st (issuedToken hmacHex sec n e)).1 = true ∧
    mapGet (verifyToken (some sec) hmacHex now1 st (issuedToken hmacHex sec n e)).2 n =
      some (e + 30) ∧
    (∀ now2, now1 ≤ now2 → now2 ≤ e →
      (verifyToken (some sec) hmacHex now2
        (verifyToken (some sec) hmacHex now1 st (issuedToken hmacHex sec n e)).2
        (issuedToken hmacHex sec n e)).1 = false) ∧
    (∀ now3, e + 30 < now3 →
      mapHas (pruneNonces now3
        (verifyToken (some sec) hmacHex now1 st (issuedToken hmacHex sec n e)).2) n = false) := by
  have hne : ¬ (n = "" ∨ e = 0 ∨ issueSig hmacHex sec n e = "") := by
    rintro (h | h | h)
    · rw [h] at hn
      exact absurd hn (by decide)
    · omega
    · exact hsig h
  have h2 : ¬ n.length ≠ 32 := by omega
  have h3 : ¬ (e < now1 ∨ now1 + 300 + 10 < e) := by omega
  have hself := timingSafeEqualHex_self (issueSig hmacHex sec n e)
  simp only [issueSig] at hself hne
  have hr1 : verifyToken (some sec) hmacHex now1 st (issuedToken hmacHex sec n e) =
      (true, mapSet (pruneNonces now1 st) n (e + 30)) := by
    simp [verifyToken, issuedToken, issueSig, hne, h2, h3, hfresh, hself]
  have happend : mapSet (pruneNonces now1 st) n (e + 30) =
      pruneNonces now1 st ++ [(n, e + 30)] :=
    mapSet_append_of_not_has _ _ _ hfresh
  refine ⟨by rw [hr1], by rw [hr1]; exact mapGet_mapSet_self _ _ _, ?_, ?_⟩
  · intro now2 hle1 hle2
    rw [hr1]
    have hkeep : ¬ (e + 30 < now2) := by omega
    have hhas : mapHas (pruneNonces now2 (mapSet (pruneNonces now1 st) n (e + 30))) n = true := by
      rw [happend]
      simp [pruneNonces, List.filter_append, hkeep, mapHas, List.any_append]
    have h3' : ¬ (e < now2 ∨ now2 + 300 + 10 < e) := by omega
    simp [verifyToken, issuedToken, issueSig, hne, h2, h3', hhas]
  · intro now3 hgt
    rw [hr1, happend]
    simp [pruneNonces, List.filter_append, hgt]
    have := mapHas_filter_false (pruneNonces now1 st) n
      (fun kv => ! decide (kv.2 < now3)) hfresh
    simpa [pruneNonces] using this

/-- C3 witness: a concrete token verifies once, is recorded with expiry
1030, is rejected on replay at time 950, and its entry is pruned at time
2000. -/
theorem claim_C3_witness :
    (verifyToken (some "s3cr3t") wHmac 900 [] (issuedToken wHmac "s3cr3t" wNonce 1000)).1 = true ∧
    mapGet (verifyToken (some "s3cr3t") wHmac 900 [] (issuedToken wHmac "s3cr3t" wNonce 1000)).2
      wNonce = some (1000 + 30) ∧
    (verifyToken (some "s3cr3t") wHmac 950
      (verifyToken (some "s3cr3t") wHmac 900 [] (issuedToken wHmac "s3cr3t" wNonce 1000)).2
      (issuedToken wHmac "s3cr3t" wNonce 1000)).1 = false ∧
    mapHas (pruneNonces 2000
      (verifyToken (some "s3cr3t") wHmac 900 [] (issuedToken wHmac "s3cr3t" wNonce 1000)).2)
      wNonce = false := by
  have h := claim_C3_single_use_nonce wHmac "s3cr3t" [] wNonce 1000 900
    (by decide) (by decide) (by decide) (by decide) (by decide) (by decide)
  exact ⟨h.1, h.2.1, h.2.2.1 950 (by decide) (by decide), h.2.2.2 2000 (by decide)⟩

/-- C10 witness: a fresh well-formed token offered with a malformed
signature (whose hex decoding has the wrong byte length, so the
timing-safe comparison throws) is rejected, and the same nonce then
verifies with the correct signature. -/
theorem claim_C10_witness :
    (verifyToken (some "s3cr3t") wHmac 900 []
      (some { nonce := some wNonce, exp := some 1000, sig := some "abcd" })).1 = false ∧
    (verifyToken (some "s3cr3t") wHmac 900
      (verifyToken (some "s3cr3t") wHmac 900 []
        (some { nonce := some wNonce, exp := some 1000, sig := some "abcd" })).2
      (issuedToken wHmac "s3cr3t" wNonce 1000)).1 = true :=
  ⟨by decide,
   claim_C10_ledger_only_on_success.2 "s3cr3t" wHmac 900 [] wNonce 1000 "abcd"
     (by decide) (by decide) (by decide) (by decide) (by decide) (by decide) (by decide)⟩

/-- `checkRate` on a fingerprint with no window: admit and start a fresh
window (shared helper). -/
theorem checkRate_fresh (h : String → String) (now : Int)
    (st : List (String × RateRec)) (ip : String)
    (hget : mapGet st (h ip) = none) :
    checkRate h now st ip = (true, mapSet st (h ip) ⟨1, now⟩) := by
  simp [checkRate, hget]

/-- `checkRate` inside the current window: increment and compare with
`RATE_MAX` (shared helper). -/
theorem checkRate_in_window (h : String → String) (now : Int)
    (st : List (String × RateRec)) (ip : String) (r : RateRec)
    (hget : mapGet st (h ip) = some r)
    (hin : ¬ now - r.windowStart > RATE_WINDOW) :
    checkRate h now st ip =
      (decide (r.count + 1 ≤ RATE_MAX), mapSet st (h ip) ⟨r.count + 1, r.windowStart⟩) := by
  simp [checkRate, hget, hin]

/-- `checkRate` after the window has lapsed: admit and restart (shared
helper). -/
theorem checkRate_reset (h : String → String) (now : Int)
    (st : List (String × RateRec)) (ip : String) (r : RateRec)
    (hget : mapGet st (h ip) = some r)
    (hout : now - r.windowStart > RATE_WINDOW) :
    checkRate h now st ip = (true, mapSet st (h ip) ⟨1, now⟩) := by
  simp [checkRate, hget, hout]

/-- `runCalls` distributes over list append (shared helper). -/
theorem runCalls_append (h : String → String) (ip : String) (ts1 ts2 : List Int)
    (st : List (String × RateRec)) :
    runCalls h ip (ts1 ++ ts2) st =
      ((runCalls h ip ts1 st).1 ++ (runCalls h ip ts2 (runCalls h ip ts1 st).2).1,
       (runCalls h ip ts2 (runCalls h ip ts1 st).2).2) := by
  induction ts1 generalizing st with
  | nil => simp [runCalls]
  | cons t ts ih => simp [runCalls, ih]

/-- While the counter stays within `RATE_MAX`, every in-window call is
admitted and the counter advances by the number of calls (shared
helper). -/
theorem runCalls_admit_all (h : String → String) (ip : String) (ts : List Int)
    (st : List (String × RateRec)) (c : Nat) (t0 : Int)
    (hget : mapGet st (h ip) = some ⟨c, t0⟩)
    (hts : ∀ t ∈ ts, ¬ t - t0 > RATE_WINDOW)
    (hbound : c + ts.length ≤ RATE_MAX) :
    runCalls h ip ts st =
      (List.replicate ts.length true, mapSet st (h ip) ⟨c + ts.length, t0⟩) := by
  induction ts generalizing st c with
  | nil => simp [runCalls, mapSet_self_of_get st (h ip) ⟨c, t0⟩ hget]
  | cons t ts ih =>
    have hstep := checkRate_in_window h t st ip ⟨c, t0⟩ hget (hts t (by simp))
    have hc : c + 1 ≤ RATE_MAX := by
      simp at hbound
      omega
    have hd : decide (c + 1 ≤ RATE_MAX) = true := by simp [hc]
    have hget2 : mapGet (mapSet st (h ip) ⟨c + 1, t0⟩) (h ip) = some ⟨c + 1, t0⟩ :=
      mapGet_mapSet_self _ _ _
    have hrest := ih (mapSet st (h ip) ⟨c + 1, t0⟩) (c + 1) hget2
      (fun t2 ht2 => hts t2 (by simp [ht2]))
      (by simp at hbound ⊢; omega)
    have harith : c + 1 + ts.length = c + (ts.length + 1) := by omega
    simp only [runCalls, hstep, hd, hrest, mapSet_mapSet, harith, List.replicate_succ,
      List.length_cons]

/-- C6: for a fixed client with no live window, nine calls inside one
60 s window admit the first eight and deny exactly the ninth; a later
call arriving more than `RATE_WINDOW` after the window start is admitted
again with a fresh window of count 1. -/
theorem claim_C6_rate_window
    (h : String → String) (ip : String) (st : List (String × RateRec))
    (t0 : Int) (ts : List Int) (t9 tl : Int)
    (hfresh : mapGet st (h ip) = none)
    (hlen : ts.length = 7)
    (hts : ∀ t ∈ ts, ¬ t - t0 > RATE_WINDOW)
    (ht9 : ¬ t9 - t0 > RATE_WINDOW)
    (htl : tl - t0 > RATE_WINDOW) :
    (runCalls h ip (t0 :: ts ++ [t9]) st).1 = List.replicate 8 true ++ [false] ∧
    (checkRate h tl (runCalls h ip (t0 :: ts ++ [t9]) st).2 ip).1 = true ∧
    mapGet (checkRate h tl (runCalls h ip (t0 :: ts ++ [t9]) st).2 ip).2 (h ip) =
      some ⟨1, tl⟩ := by
  have hstep0 := checkRate_fresh h t0 st ip hfresh
  have hget1 : mapGet (mapSet st (h ip) ⟨1, t0⟩) (h ip) = some ⟨1, t0⟩ :=
    mapGet_mapSet_self _ _ _
  have hA := runCalls_admit_all h ip ts (mapSet st (h ip) ⟨1, t0⟩) 1 t0 hget1 hts
    (by rw [hlen]; decide)
  rw [hlen] at hA
  have hA8 : runCalls h ip ts (mapSet st (h ip) ⟨1, t0⟩) =
      (List.replicate 7 true, mapSet (mapSet st (h ip) ⟨1, t0⟩) (h ip) ⟨8, t0⟩) := hA
  have hget8 : mapGet (mapSet st (h ip) ⟨8, t0⟩) (h ip) = some ⟨8, t0⟩ :=
    mapGet_mapSet_self _ _ _
  have hstep9 : checkRate h t9 (mapSet st (h ip) ⟨8, t0⟩) ip =
      (false, mapSet st (h ip) ⟨9, t0⟩) := by
    rw [checkRate_in_window h t9 _ ip ⟨8, t0⟩ hget8 ht9]
    simp [RATE_MAX, mapSet_mapSet]
  have hrun : runCalls h ip (t0 :: ts ++ [t9]) st =
      (List.replicate 8 true ++ [false],
       mapSet st (h ip) ⟨9, t0⟩) := by
    simp only [runCalls, hstep0]
    rw [List.append_eq, runCalls_append, hA8, mapSet_mapSet]
    simp only [runCalls, hstep9]
    simp [List.replicate_succ]
  refine ⟨by rw [hrun], ?_, ?_⟩
  · have hget9 : mapGet (mapSet st (h ip) ⟨9, t0⟩) (h ip) = some ⟨9, t0⟩ :=
      mapGet_mapSet_self _ _ _
    rw [hrun, checkRate_reset h tl _ ip ⟨9, t0⟩ hget9 htl]
  · have hget9 : mapGet (mapSet st (h ip) ⟨9, t0⟩) (h ip) = some ⟨9, t0⟩ :=
      mapGet_mapSet_self _ _ _
    rw [hrun, checkRate_reset h tl _ ip ⟨9, t0⟩ hget9 htl, mapSet_mapSet]
    exact mapGet_mapSet_self _ _ _

/-- C6 witness: nine calls at seconds 0–8 admit the first eight and deny
the ninth; a call at 60001 ms is admitted with a fresh window. -/
theorem claim_C6_witness :
    (runCalls (fun _ => "k") "ip" ((0 : Int) :: [1, 2, 3, 4, 5, 6, 7] ++ [8]) []).1 =
      List.replicate 8 true ++ [false] ∧
    (checkRate (fun _ => "k") 60001
      (runCalls (fun _ => "k") "ip" ((0 : Int) :: [1, 2, 3, 4, 5, 6, 7] ++ [8]) []).2 "ip").1 =
      true ∧
    mapGet (checkRate (fun _ => "k") 60001
      (runCalls (fun _ => "k") "ip" ((0 : Int) :: [1, 2, 3, 4, 5, 6, 7] ++ [8]) []).2 "ip").2
      ((fun _ => "k") "ip") = some ⟨1, 60001⟩ :=
  claim_C6_rate_window (fun _ => "k") "ip" [] 0 [1, 2, 3, 4, 5, 6, 7] 8 60001
    rfl rfl (by decide) (by decide) (by decide)

/-- C7 counterexample: thirty seconds into a full window the limiter
denies, but the response's Retry-After hint is the fixed string "60",
not the remaining window duration of 30 seconds. -/
theorem claim_C7_counterexample :
    (handlerRateStep (fun _ => "k") 30000 rateStC7 "1.2.3.4").1 = some handler429 ∧
    (RATE_WINDOW - (30000 - 0)) / 1000 = 30 ∧
    handler429.retryAfter = some "60" ∧
    handler429.retryAfter ≠ some (toString ((RATE_WINDOW - (30000 - 0)) / 1000)) := by
  refine ⟨by decide, by decide, rfl, by decide⟩

/-- C7 (amended): whenever the in-memory rate limiter denies a request,
the handler returns the fixed 429 response whose Retry-After hint is the
constant "60" — the full window size, regardless of the remaining window
duration — and the denial path is a total function (it never throws). -/
theorem claim_C7_fixed_retry_after
    (h : String → String) (now : Int) (st : List (String × RateRec)) (ip : String)
    (hdeny : (checkRate h now st ip).1 = false) :
    (handlerRateStep h now st ip).1 = some handler429 ∧
    handler429.statusCode = 429 ∧
    handler429.retryAfter = some "60" := by
  refine ⟨?_, rfl, rfl⟩
  simp [handlerRateStep, hdeny]

/-- C7 witness: the concrete mid-window denial produces the fixed 429
response. -/
theorem claim_C7_witness :
    (handlerRateStep (fun _ => "k") 30000 rateStC7 "1.2.3.4").1 = some handler429 ∧
    handler429.statusCode = 429 ∧
    handler429.retryAfter = some "60" :=
  claim_C7_fixed_retry_after (fun _ => "k") 30000 rateStC7 "1.2.3.4" (by decide)

/-- C8 counterexample: `"[]"` contains no opening brace at all — hence
no balanced brace span — yet `extractJSON` succeeds on it (the whole
text parses as a JSON array), so "throws on text containing no balanced
span" is false as stated. -/
theorem claim_C8_counterexample :
    extractJSON "[]" = .ok (Json.arr []) ∧ idxOf lbrace "[]".toList = -1 :=
  ⟨rfl, rfl⟩

set_option maxRecDepth 8000 in
/-- C8 (amended): `extractJSON` tries, in order, the whole trimmed text,
the fenced-block content, and the first-`{`-to-last-`}` substring, the
first successful JSON parse winning; it succeeds on a bare JSON object,
a fenced JSON object with a language tag, and a prose-wrapped JSON
object, and it throws "Could not parse model response." on non-empty
text with no balanced brace span provided neither the whole text nor a
fenced block parses as JSON on its own (a brace-free text that is itself
valid JSON, such as "[]", succeeds instead; empty text throws "Empty
response."). -/
theorem claim_C8_extract_strategies :
    extractJSON "\x7b\"titel\":\"Kaka\"\x7d" =
      .ok (Json.obj [("titel", Json.str "Kaka")]) ∧
    extractJSON "```json\n\x7b\"titel\":\"Kaka\"\x7d\n```" =
      .ok (Json.obj [("titel", Json.str "Kaka")]) ∧
    extractJSON "Here is the recipe: \x7b\"titel\":\"Kaka\"\x7d hope that helps!" =
      .ok (Json.obj [("titel", Json.str "Kaka")]) ∧
    (∀ text : String, text ≠ "" →
      jsonParse (jsTrim text) = none →
      (∀ cap, fencedCapture (text.toList.length + 1) text.toList = some cap →
        jsonParse (jsTrim (String.mk cap)) = none) →
      ¬ (idxOf lbrace text.toList ≥ 0 ∧ lastIdxOf rbrace text.toList > idxOf lbrace text.toList) →
      extractJSON text = .error "Could not parse model response.") := by
  refine ⟨rfl, rfl, rfl, ?_⟩
  intro text hne hwhole hfence hbrace
  unfold extractJSON
  rw [if_neg hne, hwhole]
  cases hcap : fencedCapture (text.toList.length + 1) text.toList with
  | none =>
    simp [hcap, hbrace]
    intro h1 h2
    exact absurd ⟨h1, h2⟩ hbrace
  | some cap =>
    simp [hcap, hfence cap hcap, hbrace]
    intro h1 h2
    exact absurd ⟨h1, h2⟩ hbrace

/-- C8 witness: a text with prose, no fence and no brace span falls all
the way through to the parse-failure error. -/
theorem claim_C8_extract_witness :
    extractJSON "no json here at all" = .error "Could not parse model response." :=
  claim_C8_extract_strategies.2.2.2 "no json here at all" (by decide) rfl
    (fun cap hcap => by simp [fencedCapture, tryFenceAt, prefixDrop] at hcap) (by decide)

/-- Bound on a defaulted-and-truncated string field (shared helper). -/
theorem jFieldStr_length_le (v : Json) (k : String) (bound : Nat) :
    (jFieldStr v k bound).length ≤ bound := by
  unfold jFieldStr
  cases hg : jget v k with
  | none => simp
  | some w =>
    by_cases ht : jTruthy w
    · simp [ht, strTake_length_le]
    · simp [ht]

/-- Bound on a defaulted-and-truncated meta field (shared helper). -/
theorem jMetaStr_length_le (v : Json) (k : String) (bound : Nat) :
    (jMetaStr v k bound).length ≤ bound := by
  unfold jMetaStr
  cases hg : jget v "meta" with
  | none => simp
  | some m => simpa using jFieldStr_length_le m k bound

/-- `mkIngredient` only produces records within the field bounds (shared
helper). -/
theorem mkIngredient_bounds (i : Json) (ing : Ingredient)
    (h : mkIngredient i = .ok ing) :
    ing.grupp.length ≤ 100 ∧ ing.mangd.length ≤ 100 ∧ ing.ingrediens.length ≤ 200 := by
  cases i with
  | null => simp [mkIngredient] at h
  | bool b =>
    simp [mkIngredient] at h
    simp [← h, jFieldStr_length_le]
  | num raw =>
    simp [mkIngredient] at h
    simp [← h, jFieldStr_length_le]
  | str s =>
    simp [mkIngredient] at h
    simp [← h, jFieldStr_length_le]
  | arr xs =>
    simp [mkIngredient] at h
    simp [← h, jFieldStr_length_le]
  | obj kvs =>
    simp [mkIngredient] at h
    simp [← h, jFieldStr_length_le]

/-- `mapIngredients` preserves length on success (shared helper). -/
theorem mapIngredients_length (l : List Json) (ings : List Ingredient)
    (h : mapIngredients l = .ok ings) : ings.length = l.length := by
  induction l generalizing ings with
  | nil =>
    simp [mapIngredients] at h
    simp [← h]
  | cons i rest ih =>
    unfold mapIngredients at h
    cases hmk : mkIngredient i with
    | error e => rw [hmk] at h; simp at h
    | ok ing =>
      rw [hmk] at h
      cases hrest : mapIngredients rest with
      | error e => rw [hrest] at h; simp at h
      | ok ings2 =>
        rw [hrest] at h
        simp at h
        simp [← h, ih ings2 hrest]

/-- Every ingredient produced by `mapIngredients` is within the field
bounds (shared helper). -/
theorem mapIngredients_bounds (l : List Json) (ings : List Ingredient)
    (h : mapIngredients l = .ok ings) :
    ∀ i ∈ ings, i.grupp.length ≤ 100 ∧ i.mangd.length ≤ 100 ∧ i.ingrediens.length ≤ 200 := by
  induction l generalizing ings with
  | nil =>
    simp [mapIngredients] at h
    subst h
    simp
  | cons i rest ih =>
    unfold mapIngredients at h
    cases hmk : mkIngredient i with
    | error e => rw [hmk] at h; simp at h
    | ok ing =>
      rw [hmk] at h
      cases hrest : mapIngredients rest with
      | error e => rw [hrest] at h; simp at h
      | ok ings2 =>
        rw [hrest] at h
        simp at h
        rw [← h]
        intro x hx
        rcases List.mem_cons.1 hx with hx1 | hx2
        · rw [hx1]
          exact mkIngredient_bounds i ing hmk
        · exact ih ings2 hrest x hx2

/-- Successful `arrayField` inverts to the underlying non-empty array
(shared helper). -/
theorem arrayField_ok (j : Json) (k errMsg : String) (xs : List Json)
    (h : arrayField j k errMsg = .ok xs) :
    jget j k = some (Json.arr xs) ∧ xs ≠ [] := by
  unfold arrayField at h
  cases hg : jget j k with
  | none => rw [hg] at h; simp at h
  | some v =>
    rw [hg] at h
    cases v with
    | null => simp at h
    | bool b => simp at h
    | num raw => simp at h
    | str s => simp at h
    | obj kvs => simp at h
    | arr ys =>
      by_cases hemp : ys.isEmpty
      · simp [hemp] at h
      · simp [hemp] at h
        constructor
        · rw [h]
        · rw [← h]
          simpa [List.isEmpty_iff] using hemp

/-- C9: `validateRecipe` rejects, in order, a missing/blank title, a
missing-or-empty ingredient array, and a missing-or-empty step array,
each with its own identifiable error; every accepted object comes back
with all string fields truncated to their fixed bounds and all lists
truncated to their maximum counts — an ingredient list longer than 200
entries to exactly 200, steps to at most 100 entries of at most 2000
characters each. -/
theorem claim_C9_validate_recipe (j : Json)
    (hobj : (jTruthy j && jsTypeofObject j) = true) :
    (titleEmptyish j = true → validateRecipe j = .error "Recipe missing title.") ∧
    (titleOkB j = true → badArrayB j "ingredienser" = true →
      validateRecipe j = .error "Recipe missing ingredients.") ∧
    (titleOkB j = true → (∃ xs, jget j "ingredienser" = some (Json.arr xs) ∧ xs ≠ []) →
      badArrayB j "steg" = true → validateRecipe j = .error "Recipe missing steps.") ∧
    (∀ r, validateRecipe j = .ok r →
      r.titel.length ≤ 200 ∧ r.beskrivning.length ≤ 1000 ∧
      r.detectedLanguage.length ≤ 50 ∧ r.noteringar.length ≤ 2000 ∧
      r.meta.portioner.length ≤ 100 ∧ r.meta.totaltid.length ≤ 100 ∧
      r.meta.svarighetsgrad.length ≤ 50 ∧
      (∀ xs, jget j "ingredienser" = some (Json.arr xs) →
        r.ingredienser.length = min 200 xs.length ∧
        (200 ≤ xs.length → r.ingredienser.length = 200)) ∧
      (∀ i ∈ r.ingredienser,
        i.grupp.length ≤ 100 ∧ i.mangd.length ≤ 100 ∧ i.ingrediens.length ≤ 200) ∧
      (∀ ys, jget j "steg" = some (Json.arr ys) → r.steg.length = min 100 ys.length) ∧
      (∀ s ∈ r.steg, s.length ≤ 2000)) := by
  refine ⟨?_, ?_, ?_, ?_⟩
  · intro ht
    have htitle : titleOf j = .error "Recipe missing title." := by
      cases hg : jget j "titel" with
      | none => simp [titleOf, hg]
      | some v =>
        cases v with
        | null => simp [titleOf, hg]
        | str s =>
          simp [titleEmptyish, hg] at ht
          simp [titleOf, hg, ht]
        | bool b => simp [titleEmptyish, hg] at ht
        | num raw => simp [titleEmptyish, hg] at ht
        | arr xs => simp [titleEmptyish, hg] at ht
        | obj kvs => simp [titleEmptyish, hg] at ht
    simp [validateRecipe, hobj, htitle]
  · intro htOk hbad
    obtain ⟨s, hg, hs⟩ : ∃ s, jget j "titel" = some (Json.str s) ∧ jsTrim s ≠ "" := by
      unfold titleOkB at htOk
      cases hg : jget j "titel" with
      | none => rw [hg] at htOk; simp at htOk
      | some v =>
        rw [hg] at htOk
        cases v with
        | str s =>
          refine ⟨s, rfl, ?_⟩
          simpa using htOk
        | null => simp at htOk
        | bool b => simp at htOk
        | num raw => simp at htOk
        | arr xs => simp at htOk
        | obj kvs => simp at htOk
    have htitle : titleOf j = .ok s := by simp [titleOf, hg, hs]
    have harr : arrayField j "ingredienser" "Recipe missing ingredients." =
        .error "Recipe missing ingredients." := by
      unfold badArrayB at hbad
      cases hg2 : jget j "ingredienser" with
      | none => simp [arrayField, hg2]
      | some v =>
        rw [hg2] at hbad
        cases v with
        | arr xs =>
          simp at hbad
          simp [arrayField, hg2, hbad]
        | null => simp [arrayField, hg2]
        | bool b => simp [arrayField, hg2]
        | num raw => simp [arrayField, hg2]
        | str s2 => simp [arrayField, hg2]
        | obj kvs => simp [arrayField, hg2]
    simp [validateRecipe, hobj, htitle, harr]
  · intro htOk hgood hbad
    obtain ⟨s, hg, hs⟩ : ∃ s, jget j "titel" = some (Json.str s) ∧ jsTrim s ≠ "" := by
      unfold titleOkB at htOk
      cases hg : jget j "titel" with
      | none => rw [hg] at htOk; simp at htOk
      | some v =>
        rw [hg] at htOk
        cases v with
        | str s =>
          refine ⟨s, rfl, ?_⟩
          simpa using htOk
        | null => simp at htOk
        | bool b => simp at htOk
        | num raw => simp at htOk
        | arr xs => simp at htOk
        | obj kvs => simp at htOk
    have htitle : titleOf j = .ok s := by simp [titleOf, hg, hs]
    obtain ⟨xs, hgx, hxs⟩ := hgood
    have harr : arrayField j "ingredienser" "Recipe missing ingredients." = .ok xs := by
      simp [arrayField, hgx, List.isEmpty_iff, hxs]
    have hst : arrayField j "steg" "Recipe missing steps." =
        .error "Recipe missing steps." := by
      unfold badArrayB at hbad
      cases hg2 : jget j "steg" with
      | none => simp [arrayField, hg2]
      | some v =>
        rw [hg2] at hbad
        cases v with
        | arr ys =>
          simp at hbad
          simp [arrayField, hg2, hbad]
        | null => simp [arrayField, hg2]
        | bool b => simp [arrayField, hg2]
        | num raw => simp [arrayField, hg2]
        | str s2 => simp [arrayField, hg2]
        | obj kvs => simp [arrayField, hg2]
    simp [validateRecipe, hobj, htitle, harr, hst]
  · intro r hr
    unfold validateRecipe at hr
    rw [if_pos hobj] at hr
    split at hr
    next e heq => simp at hr
    next ts hts =>
      split at hr
      next e heq => simp at hr
      next ingr hingr =>
        split at hr
        next e heq => simp at hr
        next st hst =>
          split at hr
          next e heq => simp at hr
          next ings hings =>
            simp only [Except.ok.injEq] at hr
            subst hr
            obtain ⟨hgi, _⟩ := arrayField_ok j "ingredienser" _ ingr hingr
            obtain ⟨hgs, _⟩ := arrayField_ok j "steg" _ st hst
            have hilen : ings.length = min 200 ingr.length := by
              rw [mapIngredients_length _ _ hings, List.length_take]
            refine ⟨?_, ?_, ?_, ?_, ?_, ?_, ?_, ?_, ?_, ?_, ?_⟩
            · exact strTake_length_le _ _
            · exact jFieldStr_length_le _ _ _
            · exact jFieldStr_length_le _ _ _
            · exact jFieldStr_length_le _ _ _
            · exact jMetaStr_length_le _ _ _
            · exact jMetaStr_length_le _ _ _
            · exact jMetaStr_length_le _ _ _
            · intro xs hxs
              rw [hgi] at hxs
              have hxe : xs = ingr := by
                simpa using hxs.symm
              subst hxe
              refine ⟨by simpa using hilen, ?_⟩
              intro hlong
              simp [hilen]
              omega
            · intro i hi
              exact mapIngredients_bounds _ _ hings i (by simpa using hi)
            · intro ys hys
              rw [hgs] at hys
              have hye : ys = st := by
                simpa using hys.symm
              subst hye
              simp [List.length_take]
            · intro s hs
              obtain ⟨x, _, hx⟩ := List.mem_map.1 hs
              rw [← hx]
              exact strTake_length_le _ _

/-- C9 witness: a recipe whose title is blank after trimming is rejected
with the title error. -/
theorem claim_C9_witness :
    validateRecipe recipeNoTitle = .error "Recipe missing title." :=
  (claim_C9_validate_recipe recipeNoTitle (by decide)).1 (by decide)
